import Mathlib

/-!
Verification of the fsnotify facade.

Shallow embedding of the pure parts of the `fsnotify` package
(`fsnotify.go`, `utils.go`) and proofs about them.

Go `uint32` values are modelled as `Nat` (all constants fit in 32 bits and
the only operations used on `Op` are `&`, `|` and `==`, which never
overflow). Go strings are modelled as Lean `String` / `List Char`.
-/

namespace Fsnotify

/-! ## The `Op` bitmask (fsnotify.go, `const` block)

In the Go source the five canonical operations are declared with
`Create Op = 1 << iota` followed by `Write`, `Remove`, `Rename`, `Chmod`
(iota counts every constant spec, so they get bits 0..4), and the `IN_*`
kernel constants follow with explicit hexadecimal values in the same
`const` block. -/

def Create : Nat := 1 <<< 0
def Write : Nat := 1 <<< 1
def Remove : Nat := 1 <<< 2
def Rename : Nat := 1 <<< 3
def Chmod : Nat := 1 <<< 4

def IN_ACCESS : Nat := 0x1
def IN_ALL_EVENTS : Nat := 0xfff
def IN_ATTRIB : Nat := 0x4
def IN_CLASSA_HOST : Nat := 0xffffff
def IN_CLASSA_MAX : Nat := 0x80
def IN_CLASSA_NET : Nat := 0xff000000
def IN_CLASSA_NSHIFT : Nat := 0x18
def IN_CLASSB_HOST : Nat := 0xffff
def IN_CLASSB_MAX : Nat := 0x10000
def IN_CLASSB_NET : Nat := 0xffff0000
def IN_CLASSB_NSHIFT : Nat := 0x10
def IN_CLASSC_HOST : Nat := 0xff
def IN_CLASSC_NET : Nat := 0xffffff00
def IN_CLASSC_NSHIFT : Nat := 0x8
def IN_CLOSE : Nat := 0x18
def IN_CLOSE_NOWRITE : Nat := 0x10
def IN_CLOSE_WRITE : Nat := 0x8
def IN_CREATE : Nat := 0x100
def IN_DELETE : Nat := 0x200
def IN_DELETE_SELF : Nat := 0x400
def IN_DONT_FOLLOW : Nat := 0x2000000
def IN_EXCL_UNLINK : Nat := 0x4000000
def IN_IGNORED : Nat := 0x8000
def IN_ISDIR : Nat := 0x40000000
def IN_LOOPBACKNET : Nat := 0x7f
def IN_MASK_ADD : Nat := 0x20000000
def IN_MASK_CREATE : Nat := 0x10000000
def IN_MODIFY : Nat := 0x2
def IN_MOVE : Nat := 0xc0
def IN_MOVED_FROM : Nat := 0x40
def IN_MOVED_TO : Nat := 0x80
def IN_MOVE_SELF : Nat := 0x800
def IN_ONESHOT : Nat := 0x80000000
def IN_ONLYDIR : Nat := 0x1000000
def IN_OPEN : Nat := 0x20
def IN_Q_OVERFLOW : Nat := 0x4000

/-! ## Sentinel errors (fsnotify.go, `var` block)

Go's `errors.New(msg)` yields a fresh error value carrying `msg`; the three
package-level sentinels are modelled by their messages, which already
distinguish them. -/

structure GoError where
  msg : String
  deriving Repr, DecidableEq

def ErrNonExistentWatch : GoError := ⟨"fsnotify: can't remove non-existent watcher"⟩
def ErrEventOverflow : GoError := ⟨"fsnotify: queue or buffer overflow"⟩
def ErrClosed : GoError := ⟨"fsnotify: watcher already closed"⟩

/-- The sentinel error values the package exposes at the boundary. -/
def sentinelErrors : List GoError := [ErrNonExistentWatch, ErrEventOverflow, ErrClosed]

/-! ## Options (fsnotify.go: `withOpts`, `getOptions`, `WithBufferSize`)

Go's `addOpt = func(opt *withOpts)` mutates the options record in place;
it is modelled as a state transformer `withOpts → withOpts`, and
`getOptions` folds the option list over the default record, exactly as the
source's `for _, o := range opts { o(&with) }` loop does. -/

structure withOpts where
  bufsize : Int
  deriving Repr, DecidableEq

def defaultOpts : withOpts := { bufsize := 65536 }

def addOpt : Type := withOpts → withOpts

def getOptions (opts : List addOpt) : withOpts :=
  opts.foldl (fun w o => o w) defaultOpts

def WithBufferSize (bytes : Int) : addOpt :=
  fun opt => { opt with bufsize := bytes }

/-- `func (o Op) Has(h Op) bool { return o&h == h }` -/
def OpHas (o h : Nat) : Bool := o &&& h == h

/-- `type Event struct { Name string; Op Op }` -/
structure Event where
  Name : String
  Op : Nat
  deriving Repr, DecidableEq

/-- `func (e Event) Has(op Op) bool { return e.Op.Has(op) }` -/
def EventHas (e : Event) (op : Nat) : Bool := OpHas e.Op op

/-! ## `Op.String` (fsnotify.go)

The stringifier tests fifteen kernel subflags in a fixed order, appending
`"|" + name` to a builder for each one the receiver `Has`; the canonical
branches (`CREATE`, `REMOVE`, `WRITE`, `RENAME`, `CHMOD`) are commented out
in the source. If nothing matched it returns `"[no events]"`, otherwise the
built string minus its leading `"|"` (Go's `b.String()[1:]`). -/

/-- The `if o.Has(...) { b.WriteString("|...") }` tests of `Op.String`, in
source order. -/
def opFlagTable : List (Nat × String) :=
  [(IN_ACCESS, "IN_ACCESS"), (IN_ATTRIB, "IN_ATTRIB"), (IN_CLOSE, "IN_CLOSE"),
   (IN_CLOSE_NOWRITE, "IN_CLOSE_NOWRITE"), (IN_CLOSE_WRITE, "IN_CLOSE_WRITE"),
   (IN_CREATE, "IN_CREATE"), (IN_DELETE, "IN_DELETE"),
   (IN_DELETE_SELF, "IN_DELETE_SELF"), (IN_MOVED_TO, "IN_MOVED_TO"),
   (IN_MODIFY, "IN_MODIFY"), (IN_MOVE_SELF, "IN_MOVE_SELF"),
   (IN_MOVED_FROM, "IN_MOVED_FROM"), (IN_ISDIR, "IN_ISDIR"),
   (IN_OPEN, "IN_OPEN"), (IN_DONT_FOLLOW, "IN_DONT_FOLLOW")]

/-- The subflag names `Op.String` emits for `o`, in emission order. -/
def opFlagNames (o : Nat) : List String :=
  (opFlagTable.filter (fun p => OpHas o p.1)).map (fun p => p.2)

/-- `func (o Op) String() string`: sequential conditional appends to a
builder are the join of the matching `"|" + name` parts; `b.Len() == 0`
iff no test matched; `b.String()[1:]` is `drop 1`. -/
def opString (o : Nat) : String :=
  let b := String.join
    ((opFlagTable.filter (fun p => OpHas o p.1)).map (fun p => "|" ++ p.2))
  if b = "" then "[no events]" else b.drop 1

/-- The union of all subflag bits `Op.String` inspects. -/
def inspectedMask : Nat := opFlagTable.foldr (fun p m => p.1 ||| m) 0

/-- Names joined by `"|"` separators. -/
def joinBar : List String → String
  | [] => ""
  | [n] => n
  | n :: rest => n ++ "|" ++ joinBar rest

/-- The kernel subflag names `Op.String` can emit. -/
def kernelSubflagNames : List String := opFlagTable.map (fun p => p.2)

/-- The canonical operation names; in the source the branches that would
emit them are commented out. -/
def canonicalOpNames : List String := ["CREATE", "WRITE", "REMOVE", "RENAME", "CHMOD"]

/-! ## Path lexical helpers (Go `path/filepath`, Unix separator `'/'`)

`recursivePath` calls `filepath.Base` and `filepath.Dir`; these are
embedded here for Unix paths, operating on the character list of the
string. -/

/-- Strip trailing `'/'` separators (the first loop of `filepath.Base`,
also used by `filepath.Dir`'s scan). -/
def dropTrailingSeps (l : List Char) : List Char :=
  (l.reverse.dropWhile (fun c => c = '/')).reverse

/-- The suffix after the last `'/'` — `path[i+1:]` for
`i = LastIndex(path, "/")`; the whole list when there is no separator. -/
def afterLastSep (l : List Char) : List Char :=
  (l.reverse.takeWhile (fun c => c ≠ '/')).reverse

/-- The prefix up to and including the last `'/'` — `path[:i+1]`; `[]` when
there is no separator. -/
def upToLastSep (l : List Char) : List Char :=
  (l.reverse.dropWhile (fun c => c ≠ '/')).reverse

/-- Split a character list on `'/'`; components may be empty. -/
def splitSlash : List Char → List (List Char)
  | [] => [[]]
  | c :: rest =>
    match splitSlash rest with
    | [] => [[]]
    | g :: gs => if c = '/' then [] :: g :: gs else (c :: g) :: gs

/-- The element-elimination loop of `filepath.Clean`: skip empty and `"."`
elements; on `".."` pop the previous element when possible, drop it at the
root, and keep it when the path is relative and nothing can be popped. The
output stack is accumulated in reverse. -/
def cleanLoop (rooted : Bool) :
    List (List Char) → List (List Char) → List (List Char)
  | [], out => out.reverse
  | c :: rest, out =>
    if c = [] ∨ c = ['.'] then cleanLoop rooted rest out
    else if c = ['.', '.'] then
      match out with
      | [] =>
        if rooted then cleanLoop rooted rest []
        else cleanLoop rooted rest [['.', '.']]
      | o :: out2 =>
        if o = ['.', '.'] then cleanLoop rooted rest (['.', '.'] :: o :: out2)
        else cleanLoop rooted rest out2
    else cleanLoop rooted rest (c :: out)

/-- Embeds `filepath.Clean` (Unix) per its documented transformation:
collapse separators, eliminate `"."` elements, eliminate inner `".."`
together with the preceding element, drop `".."` at the root; `"."` when
the result is empty. -/
def clean (p : String) : String :=
  if p = "" then "."
  else
    let rooted : Bool := p.data.head? == some '/'
    let out := cleanLoop rooted (splitSlash p.data) []
    if out = [] then (if rooted then "/" else ".")
    else (if rooted then "/" else "") ++ ⟨List.intercalate ['/'] out⟩

/-- Embeds `filepath.Base` (Unix): `"."` for the empty path; strip trailing
separators; the part after the last separator; `"/"` when only separators
remain. -/
def base (p : String) : String :=
  if p = "" then "."
  else if afterLastSep (dropTrailingSeps p.data) = [] then "/"
  else ⟨afterLastSep (dropTrailingSeps p.data)⟩

/-- Embeds `filepath.Dir` (Unix): everything up to the final separator,
cleaned; `Clean("")` = `"."` when there is no separator. -/
def dir (p : String) : String := clean ⟨upToLastSep p.data⟩

/-- The final component of a path, read off directly: what remains after
the trailing separators and everything up to the last remaining separator
are stripped (empty for the empty path or an all-separator path). -/
def finalComponent (p : String) : String :=
  ⟨afterLastSep (dropTrailingSeps p.data)⟩

/-- `func recursivePath(path string) (string, bool)` (fsnotify.go):
if `filepath.Base(path) == "..."` return `filepath.Dir(path), true`,
else return `path, false`. -/
def recursivePath (p : String) : String × Bool :=
  if base p = "..." then (dir p, true) else (p, false)

/-! ## `GetDirNames` (utils.go) over a filesystem model

`GetDirNames` runs `filepath.Walk` on each root with the callback
`visit`, which appends **every** visited path to the slice (it never
checks `info.IsDir()`), and on a walk error calls `log.Fatal`, which
terminates the process — so the `return nil, err` branch of `GetDirNames`
is unreachable. The filesystem is modelled as a partial map from root
names to in-memory trees; a root outside the map is not walkable. -/

/-- A filesystem node: a plain file, or a directory with named children
listed in the (lexically sorted) order `filepath.Walk` visits them. -/
inductive FSTree where
  | file : FSTree
  | dir (children : List (String × FSTree)) : FSTree

mutual

/-- The paths `filepath.Walk path` hands to the walk function, in visit
order: the node itself first, then its subtrees depth-first (pre-order);
child paths are `filepath.Join(path, name)`. -/
def walkPaths (path : String) : FSTree → List String
  | .file => [path]
  | .dir children => path :: walkChildren path children

/-- Walk each child subtree in order. -/
def walkChildren (path : String) : List (String × FSTree) → List String
  | [] => []
  | (n, t) :: rest => walkPaths (path ++ "/" ++ n) t ++ walkChildren path rest

end

mutual

/-- The directory paths under a node, in pre-order — the output the
spec's contract ("returns all directories in pre-order") describes. -/
def dirPaths (path : String) : FSTree → List String
  | .file => []
  | .dir children => path :: dirChildrenPaths path children

/-- Directory paths of each child subtree, in order. -/
def dirChildrenPaths (path : String) : List (String × FSTree) → List String
  | [] => []
  | (n, t) :: rest => dirPaths (path ++ "/" ++ n) t ++ dirChildrenPaths path rest

end

/-- Outcome of `GetDirNames`: a result slice, or process termination by
`log.Fatal` inside `visit`. -/
inductive WalkResult where
  | ok (files : List String) : WalkResult
  | fatal : WalkResult
  deriving Repr, DecidableEq

/-- The `for _, v := range names` loop of `GetDirNames`: walk root `v`,
`visit` appending every visited path to `files`; an unwalkable root makes
`visit` hit its error branch and `log.Fatal`. -/
def getDirNamesLoop (fs : String → Option FSTree) :
    List String → List String → WalkResult
  | [], files => .ok files
  | v :: rest, files =>
    match fs v with
    | none => .fatal
    | some t => getDirNamesLoop fs rest (files ++ walkPaths v t)

/-- `func GetDirNames(names []string) ([]string, error)` (utils.go). -/
def GetDirNames (fs : String → Option FSTree) (names : List String) : WalkResult :=
  getDirNamesLoop fs names []

/-- Concrete filesystem for the C1 counterexample: one walkable root `"r"`,
a directory holding the single plain file `"f"`. -/
def exFS : String → Option FSTree := fun s =>
  if s = "r" then some (.dir [("f", .file)]) else none

end Fsnotify

/-- `OpHas o h` holds exactly when every bit of `h` is a bit of `o`. -/
theorem Fsnotify.opHas_iff_bits (o h : Nat) :
    Fsnotify.OpHas o h = true ↔ ∀ i, h.testBit i = true → o.testBit i = true := by
  unfold Fsnotify.OpHas
  rw [beq_iff_eq]
  constructor
  · intro hand i hbit
    have := congrArg (fun n => n.testBit i) hand
    simp only [Nat.testBit_land] at this
    rw [hbit] at this
    cases ho : o.testBit i
    · rw [ho] at this; simp at this
    · rfl
  · intro hsub
    apply Nat.eq_of_testBit_eq
    intro i
    rw [Nat.testBit_land]
    cases hb : h.testBit i
    · simp
    · simp [hsub i hb]

/-- Joining `"|" + name` parts equals `"|"` followed by the
`"|"`-intercalation of the names, for a nonempty name list. -/
theorem Fsnotify.join_bar_parts (names : List String) (h : names ≠ []) :
    String.join (names.map (fun n => "|" ++ n)) =
      "|" ++ Fsnotify.joinBar names := by
  induction names with
  | nil => exact absurd rfl h
  | cons n rest ih =>
    cases rest with
    | nil =>
      apply String.ext
      simp [Fsnotify.joinBar]
    | cons m rest2 =>
      apply String.ext
      have ihd := congrArg String.data (ih (by simp))
      have hbar : ("|" : String).data = ['|'] := rfl
      simp only [String.data_join, List.map_map, List.map_cons,
        List.flatten_cons, Function.comp, String.data_append, hbar,
        List.cons_append, List.append_assoc, List.nil_append] at ihd ⊢
      injection ihd with hhead htail
      simp [Fsnotify.joinBar, String.data_append, hbar, htail]

/-- If no bit of `o` lies in a mask containing all bits of a nonzero flag
`f`, then `o.Has(f)` is false. -/
theorem Fsnotify.opHas_false_of_disjoint (o M f : Nat)
    (hoM : o &&& M = 0) (hfM : f &&& M = f) (hf : f ≠ 0) :
    Fsnotify.OpHas o f = false := by
  have hbits : ∀ i, f.testBit i = true → M.testBit i = true := by
    intro i hi
    have := congrArg (fun n => n.testBit i) hfM
    simp only [Nat.testBit_land] at this
    cases hM : M.testBit i
    · rw [hM, hi, Bool.and_false] at this; exact absurd this.symm (by simp [hi])
    · rfl
  have hzero : ∀ i, o.testBit i = true → M.testBit i = false := by
    intro i hi
    have := congrArg (fun n => n.testBit i) hoM
    simp only [Nat.testBit_land, Nat.zero_testBit] at this
    cases hM : M.testBit i
    · rfl
    · rw [hi, hM] at this; simp at this
  have handf : o &&& f = 0 := by
    apply Nat.eq_of_testBit_eq
    intro i
    simp only [Nat.testBit_land, Nat.zero_testBit]
    cases hfi : f.testBit i
    · simp
    · cases hoi : o.testBit i
      · simp
      · exact absurd (hbits i hfi) (by simp [hzero i hoi])
  unfold Fsnotify.OpHas
  rw [handf]
  simp [Ne.symm hf]

/-- C7: for every `Op` value, `Op.String` yields `"[no events]"` or the
`"|"`-joined list of matching kernel subflag names; every emitted name is a
kernel subflag name (`IN_ACCESS`, `IN_ATTRIB`, `IN_CLOSE`, `IN_CREATE`, …)
and the canonical names `CREATE`, `WRITE`, `REMOVE`, `RENAME`, `CHMOD` are
never among them. -/
theorem opString_only_kernel_names (o : Nat) :
    ((Fsnotify.opFlagNames o = [] ∧ Fsnotify.opString o = "[no events]") ∨
      (Fsnotify.opFlagNames o ≠ [] ∧
        Fsnotify.opString o = Fsnotify.joinBar (Fsnotify.opFlagNames o))) ∧
    ∀ s ∈ Fsnotify.opFlagNames o,
      s ∈ Fsnotify.kernelSubflagNames ∧ s ∉ Fsnotify.canonicalOpNames := by
  have hmap :
      (Fsnotify.opFlagTable.filter
          (fun p => Fsnotify.OpHas o p.1)).map (fun p => "|" ++ p.2) =
        (Fsnotify.opFlagNames o).map (fun n => "|" ++ n) := by
    simp [Fsnotify.opFlagNames, List.map_map, Function.comp]
  constructor
  · by_cases h : Fsnotify.opFlagNames o = []
    · left
      refine ⟨h, ?_⟩
      have hfilter :
          Fsnotify.opFlagTable.filter (fun p => Fsnotify.OpHas o p.1) = [] := by
        have h2 := h
        unfold Fsnotify.opFlagNames at h2
        exact List.map_eq_nil_iff.mp h2
      simp [Fsnotify.opString, hfilter, String.join]
    · right
      refine ⟨h, ?_⟩
      unfold Fsnotify.opString
      rw [hmap, Fsnotify.join_bar_parts _ h]
      have hbar : ("|" : String).data = ['|'] := rfl
      have hne : ("|" ++ Fsnotify.joinBar (Fsnotify.opFlagNames o)) ≠ "" := by
        intro hc
        have hd := congrArg String.data hc
        simp [String.data_append, hbar] at hd
      rw [if_neg hne]
      apply String.ext
      simp [String.data_append, hbar]
  · intro s hs
    have hk : s ∈ Fsnotify.kernelSubflagNames := by
      obtain ⟨p, hp, hpe⟩ := List.mem_map.mp hs
      exact hpe ▸ List.mem_map_of_mem _ (List.mem_filter.mp hp).1
    have hnc : ∀ t ∈ Fsnotify.kernelSubflagNames,
        t ∉ Fsnotify.canonicalOpNames := by decide
    exact ⟨hk, hnc s hk⟩

/-- C7 (witness): at `o = IN_CREATE` the stringifier emits the joined
kernel subflag names. -/
theorem opString_only_kernel_names_witness :
    Fsnotify.opString Fsnotify.IN_CREATE =
      Fsnotify.joinBar (Fsnotify.opFlagNames Fsnotify.IN_CREATE) := by
  rcases (opString_only_kernel_names Fsnotify.IN_CREATE).1 with
    ⟨hnil, _⟩ | ⟨_, heq⟩
  · exact absurd hnil (by decide)
  · exact heq

/-- C9: an `Op` none of whose set bits lies in the subflag masks the
stringifier inspects produces exactly `"[no events]"`. -/
theorem opString_uninspected_no_events (o : Nat)
    (h : o &&& Fsnotify.inspectedMask = 0) :
    Fsnotify.opString o = "[no events]" := by
  have hf : ∀ f, f &&& Fsnotify.inspectedMask = f → f ≠ 0 →
      Fsnotify.OpHas o f = false :=
    fun f hfM hf0 => Fsnotify.opHas_false_of_disjoint o _ f h hfM hf0
  have h1 := hf Fsnotify.IN_ACCESS (by decide) (by decide)
  have h2 := hf Fsnotify.IN_ATTRIB (by decide) (by decide)
  have h3 := hf Fsnotify.IN_CLOSE (by decide) (by decide)
  have h4 := hf Fsnotify.IN_CLOSE_NOWRITE (by decide) (by decide)
  have h5 := hf Fsnotify.IN_CLOSE_WRITE (by decide) (by decide)
  have h6 := hf Fsnotify.IN_CREATE (by decide) (by decide)
  have h7 := hf Fsnotify.IN_DELETE (by decide) (by decide)
  have h8 := hf Fsnotify.IN_DELETE_SELF (by decide) (by decide)
  have h9 := hf Fsnotify.IN_MOVED_TO (by decide) (by decide)
  have h10 := hf Fsnotify.IN_MODIFY (by decide) (by decide)
  have h11 := hf Fsnotify.IN_MOVE_SELF (by decide) (by decide)
  have h12 := hf Fsnotify.IN_MOVED_FROM (by decide) (by decide)
  have h13 := hf Fsnotify.IN_ISDIR (by decide) (by decide)
  have h14 := hf Fsnotify.IN_OPEN (by decide) (by decide)
  have h15 := hf Fsnotify.IN_DONT_FOLLOW (by decide) (by decide)
  simp [Fsnotify.opString, Fsnotify.opFlagTable, List.filter, String.join,
    h1, h2, h3, h4, h5, h6, h7, h8, h9, h10, h11, h12, h13, h14, h15]

/-- C9 (witness): `IN_Q_OVERFLOW` has no bit in the inspected masks, and
its string is `"[no events]"`. -/
theorem opString_uninspected_no_events_witness :
    Fsnotify.IN_Q_OVERFLOW &&& Fsnotify.inspectedMask = 0 ∧
    Fsnotify.opString Fsnotify.IN_Q_OVERFLOW = "[no events]" :=
  ⟨by decide, opString_uninspected_no_events Fsnotify.IN_Q_OVERFLOW (by decide)⟩

/-- `filepath.Base p = "..."` exactly when the final component of `p`
is `"..."`: `Base`'s special results `"."` (empty path) and `"/"`
(all-separator path) arise only when the final component is empty. -/
theorem Fsnotify.base_dots_iff (p : String) :
    Fsnotify.base p = "..." ↔ Fsnotify.finalComponent p = "..." := by
  unfold Fsnotify.base Fsnotify.finalComponent
  by_cases hp : p = ""
  · subst hp
    decide
  · rw [if_neg hp]
    by_cases hr : Fsnotify.afterLastSep (Fsnotify.dropTrailingSeps p.data) = []
    · rw [if_pos hr, hr]
      constructor
      · intro h; exact absurd h (by decide)
      · intro h; exact absurd h (by decide)
    · rw [if_neg hr]

/-- C3: for every path whose final component is `"..."`, `recursivePath`
returns the parent directory (`filepath.Dir` of the path) together with
`true`; for every path whose final component is not `"..."` it returns the
path unchanged together with `false`. -/
theorem recursivePath_spec (p : String) :
    (Fsnotify.finalComponent p = "..." →
      Fsnotify.recursivePath p = (Fsnotify.dir p, true)) ∧
    (Fsnotify.finalComponent p ≠ "..." →
      Fsnotify.recursivePath p = (p, false)) := by
  constructor
  · intro h
    unfold Fsnotify.recursivePath
    rw [if_pos ((Fsnotify.base_dots_iff p).mpr h)]
  · intro h
    unfold Fsnotify.recursivePath
    rw [if_neg (fun hb => h ((Fsnotify.base_dots_iff p).mp hb))]

/-- C3 (witness): `"/a/b/..."` has final component `"..."` and yields
`("/a/b", true)`. -/
theorem recursivePath_spec_witness :
    Fsnotify.finalComponent "/a/b/..." = "..." ∧
    Fsnotify.recursivePath "/a/b/..." = ("/a/b", true) := by
  have h := (recursivePath_spec "/a/b/...").1 (by decide)
  refine ⟨by decide, ?_⟩
  rw [h]
  decide

/-- C10: `recursivePath` strips at most one trailing `"..."` per call:
`"a/.../..."` yields `("a/...", true)` — and the result's final component
is still `"..."` — while `"..."` alone yields `(".", true)`. -/
theorem recursivePath_single_strip :
    Fsnotify.recursivePath "a/.../..." = ("a/...", true) ∧
    Fsnotify.finalComponent "a/..." = "..." ∧
    Fsnotify.recursivePath "..." = (".", true) := by
  refine ⟨?_, ?_, ?_⟩ <;> decide

/-- C2 (counterexample): the claim "every canonical operation occupies a bit
position disjoint from every inotify subflag constant, so setting only
subflag bits never makes `Has(c)` true" is false on the code: `Create`
(bit 0, value 1) and `IN_ACCESS` (0x1) are the very same bit, so the `Op`
holding exactly the subflag `IN_ACCESS` satisfies `Has(Create)`. -/
theorem create_collides_with_IN_ACCESS :
    Fsnotify.Create &&& Fsnotify.IN_ACCESS ≠ 0 ∧
    Fsnotify.OpHas Fsnotify.IN_ACCESS Fsnotify.Create = true := by
  decide

/-- C2 (amended): the canonical operations and the inotify subflag constants
live in one shared 32-bit space and are not bit-disjoint: each canonical
operation coincides numerically with a low subflag constant
(`Create = IN_ACCESS`, `Write = IN_MODIFY`, `Remove = IN_ATTRIB`,
`Rename = IN_CLOSE_WRITE`, `Chmod = IN_CLOSE_NOWRITE`); `Has(Create)` and
`Has(IN_CREATE)` are nonetheless distinct, independently meaningful tests
because `Create` (0x1) and `IN_CREATE` (0x100) are disjoint bits: an `Op`
holding exactly `IN_CREATE` fails `Has(Create)` and an `Op` holding exactly
`Create` fails `Has(IN_CREATE)`. -/
theorem op_bit_layout :
    Fsnotify.Create = Fsnotify.IN_ACCESS ∧
    Fsnotify.Write = Fsnotify.IN_MODIFY ∧
    Fsnotify.Remove = Fsnotify.IN_ATTRIB ∧
    Fsnotify.Rename = Fsnotify.IN_CLOSE_WRITE ∧
    Fsnotify.Chmod = Fsnotify.IN_CLOSE_NOWRITE ∧
    Fsnotify.Create &&& Fsnotify.IN_CREATE = 0 ∧
    Fsnotify.OpHas Fsnotify.IN_CREATE Fsnotify.Create = false ∧
    Fsnotify.OpHas Fsnotify.Create Fsnotify.IN_CREATE = false := by
  decide

/-- C6: `Op.Has` implements set containment on the bitmask: `o.Has(h)` holds
iff every bit set in `h` is set in `o`; consequently `o.Has(a|b)` holds
exactly when `o.Has(a)` and `o.Has(b)` both hold, and `Event.Has(op)` agrees
with `e.Op.Has(op)`. -/
theorem opHas_is_set_containment (o h a b : Nat) (e : Fsnotify.Event) :
    (Fsnotify.OpHas o h = true ↔
      ∀ i, h.testBit i = true → o.testBit i = true) ∧
    (Fsnotify.OpHas o (a ||| b) = true ↔
      Fsnotify.OpHas o a = true ∧ Fsnotify.OpHas o b = true) ∧
    Fsnotify.EventHas e h = Fsnotify.OpHas e.Op h := by
  refine ⟨Fsnotify.opHas_iff_bits o h, ?_, rfl⟩
  rw [Fsnotify.opHas_iff_bits, Fsnotify.opHas_iff_bits, Fsnotify.opHas_iff_bits]
  constructor
  · intro hor
    constructor
    · intro i hi
      exact hor i (by rw [Nat.testBit_lor, hi, Bool.true_or])
    · intro i hi
      exact hor i (by rw [Nat.testBit_lor, hi, Bool.or_true])
  · rintro ⟨ha, hb⟩ i hi
    rw [Nat.testBit_lor] at hi
    rcases Bool.or_eq_true_iff.mp hi with h | h
    · exact ha i h
    · exact hb i h

/-- The walk loop of `GetDirNames`, characterized: if every root is
walkable the result is the accumulated files followed by the pre-order
walk of each root in turn; otherwise the process dies in `visit`. -/
theorem Fsnotify.getDirNamesLoop_spec (fs : String → Option Fsnotify.FSTree)
    (names files : List String) :
    Fsnotify.getDirNamesLoop fs names files =
      if names.all (fun n => (fs n).isSome)
      then .ok (files ++ (names.map (fun n =>
        match fs n with
        | some t => Fsnotify.walkPaths n t
        | none => [])).flatten)
      else .fatal := by
  induction names generalizing files with
  | nil => simp [Fsnotify.getDirNamesLoop]
  | cons v rest ih =>
    cases h : fs v with
    | none => simp [Fsnotify.getDirNamesLoop, h]
    | some t => simp [Fsnotify.getDirNamesLoop, h, ih, List.append_assoc]

/-- C1 (counterexample): the claim "GetDirNames returns exactly the
directory paths under the roots, and no non-directory entries" is false on
the code: `visit` appends every visited path without checking
`info.IsDir()`. On the root `"r"` — a directory holding the single plain
file `"f"` — `GetDirNames` returns `["r", "r/f"]`, which contains the
non-directory entry `"r/f"`, while the directories in pre-order are just
`["r"]`; moreover an unwalkable root does not produce an error return:
`visit` calls `log.Fatal`, terminating the process. -/
theorem getDirNames_returns_files_too :
    Fsnotify.GetDirNames Fsnotify.exFS ["r"] =
      Fsnotify.WalkResult.ok ["r", "r/f"] ∧
    Fsnotify.dirPaths "r" (Fsnotify.FSTree.dir [("f", Fsnotify.FSTree.file)])
      = ["r"] ∧
    Fsnotify.WalkResult.ok ["r", "r/f"] ≠ Fsnotify.WalkResult.ok ["r"] ∧
    Fsnotify.GetDirNames Fsnotify.exFS ["missing"] = Fsnotify.WalkResult.fatal := by
  refine ⟨?_, ?_, ?_, ?_⟩
  · simp [Fsnotify.GetDirNames, Fsnotify.getDirNamesLoop, Fsnotify.exFS,
      Fsnotify.walkPaths, Fsnotify.walkChildren]
  · simp [Fsnotify.dirPaths, Fsnotify.dirChildrenPaths]
  · intro h
    simp at h
  · simp [Fsnotify.GetDirNames, Fsnotify.getDirNamesLoop, Fsnotify.exFS]

/-- C1 (amended): for every filesystem and list of roots, if every root is
walkable `GetDirNames` returns the concatenated pre-order walks of the
roots — every path under them, directories *and* plain files, each root's
subtree flattened in depth-first pre-order; if any root is not walkable
the callback terminates the process via `log.Fatal` instead of returning
an error. -/
theorem getDirNames_preorder_all_paths (fs : String → Option Fsnotify.FSTree)
    (names : List String) :
    Fsnotify.GetDirNames fs names =
      if names.all (fun n => (fs n).isSome)
      then .ok ((names.map (fun n =>
        match fs n with
        | some t => Fsnotify.walkPaths n t
        | none => [])).flatten)
      else .fatal := by
  unfold Fsnotify.GetDirNames
  rw [Fsnotify.getDirNamesLoop_spec]
  simp

/-- C6 (witness): the union characterization at `o = 3`, `a = 1`, `b = 2`. -/
theorem opHas_is_set_containment_witness :
    Fsnotify.OpHas 3 (1 ||| 2) = true ↔
      Fsnotify.OpHas 3 1 = true ∧ Fsnotify.OpHas 3 2 = true :=
  (opHas_is_set_containment 3 1 1 2 ⟨"x", 3⟩).2.1

/-- C8: every `Op` value contains the zero operation: `o.Has(Op(0))` is
always true, so every `Event` — including one with an empty bitmask —
satisfies `Event.Has(Op(0))`. -/
theorem opHas_zero (o : Nat) (e : Fsnotify.Event) :
    Fsnotify.OpHas o 0 = true ∧ Fsnotify.EventHas e 0 = true := by
  constructor
  · simp [Fsnotify.OpHas]
  · simp [Fsnotify.EventHas, Fsnotify.OpHas]

/-- C4: the package exposes exactly three sentinel error values at the
boundary — `ErrNonExistentWatch`, `ErrEventOverflow`, `ErrClosed` — and
they are pairwise distinguishable: no two of the three are equal. -/
theorem sentinel_errors_distinct :
    Fsnotify.sentinelErrors =
      [Fsnotify.ErrNonExistentWatch, Fsnotify.ErrEventOverflow,
        Fsnotify.ErrClosed] ∧
    Fsnotify.sentinelErrors.length = 3 ∧
    Fsnotify.ErrNonExistentWatch ≠ Fsnotify.ErrEventOverflow ∧
    Fsnotify.ErrNonExistentWatch ≠ Fsnotify.ErrClosed ∧
    Fsnotify.ErrEventOverflow ≠ Fsnotify.ErrClosed := by
  refine ⟨rfl, rfl, ?_, ?_, ?_⟩ <;> decide

/-- C5: `getOptions` of an empty option list yields the default buffer size
65536, and appending `WithBufferSize n` after any options makes the buffer
size `n`: the last `WithBufferSize` wins. -/
theorem getOptions_bufsize :
    (Fsnotify.getOptions []).bufsize = 65536 ∧
    ∀ (opts : List Fsnotify.addOpt) (n : Int),
      (Fsnotify.getOptions (opts ++ [Fsnotify.WithBufferSize n])).bufsize = n := by
  constructor
  · rfl
  · intro opts n
    simp [Fsnotify.getOptions, List.foldl_append, Fsnotify.WithBufferSize]
